import Mathlib

/-!
Verification of the segment-extraction pipeline of the drive-looper server
(`src/server.js`, all revisions found in the repository).

The JavaScript source is embedded shallowly:

* JavaScript numbers are modelled by `JsNum`: either a finite rational or the
  single value `nan` standing for every non-finite double (`NaN`, `±Infinity`).
  The request fields of interest are plain decimal literals, on which
  `parseFloat`, `parseInt` and `Number` agree with exact rational arithmetic
  (`parseInt` truncates toward zero); `toFixed(3)` is rounding to a multiple
  of `1/1000`.
* Fallible functions (`normalizeTimes`, `parseTimeInputs`, `downloadFile`,
  `toMs`) return `Except`/`Option` instead of throwing.
* The event-driven subprocess supervision and the concurrency gate are
  modelled as explicit transition systems whose atomic steps are the
  synchronous segments between `await` points of the handlers.
-/

/-- A JavaScript number: a finite rational, or `nan` standing for any
non-finite double (`NaN`, `Infinity`, `-Infinity`); the code under test only
distinguishes finite from non-finite via `Number.isFinite`. -/
inductive JsNum where
  | nan : JsNum
  | fin : ℚ → JsNum
deriving DecidableEq

/-- The four time fields destructured from the request body/query by
`normalizeTimes` (src/server.js:123).  `none` models an absent (`undefined`
or `null`) field; a present field carries the numeric value that
`parseFloat` produces for it. -/
structure TrimReq where
  start : Option JsNum
  end_ : Option JsNum
  startMs : Option JsNum
  endMs : Option JsNum
deriving DecidableEq

/-- Division by 1000 used for `parseFloat(startMs) / 1000`
(src/server.js:128); division propagates non-finiteness. -/
def jsDivMs : JsNum → JsNum
  | .nan => .nan
  | .fin q => .fin (q / 1000)

/-- Truncation toward zero: the value `parseInt(x, 10)` produces for a plain
decimal literal `x` (src/server.js:148-149). -/
def jsTrunc (q : ℚ) : ℤ :=
  if 0 ≤ q then ⌊q⌋ else ⌈q⌉

/-- `+x.toFixed(3)`: round to millisecond (three decimal digit) precision
(src/server.js:143-145).  On millisecond-exact inputs this is the identity,
exactly as in JavaScript. -/
def toFixed3 (q : ℚ) : ℚ :=
  ((round (q * 1000) : ℤ) : ℚ) / 1000

/-- `x % 1 !== 0`: the value has a non-zero fractional part
(src/server.js:155). -/
def hasFracPart (q : ℚ) : Bool :=
  q.den != 1

/-- One disjunct of `msNonZero` (src/server.js:148-152): the raw millisecond
field is present and `parseInt(field, 10) % 1000 !== 0`.  When the field is
non-finite, `parseInt` yields `NaN` and `NaN % 1000 !== 0` is true. -/
def msFieldNonZero : Option JsNum → Bool
  | none => false
  | some .nan => true
  | some (.fin q) => jsTrunc q % 1000 != 0

/-- The effective start bound in seconds (src/server.js:125-129): the
`start` field wins when present, else `startMs / 1000`, else `NaN`. -/
def effStart (r : TrimReq) : JsNum :=
  match r.start with
  | some v => v
  | none =>
    match r.startMs with
    | some v => jsDivMs v
    | none => .nan

/-- The effective end bound in seconds (src/server.js:131-135). -/
def effEnd (r : TrimReq) : JsNum :=
  match r.end_ with
  | some v => v
  | none =>
    match r.endMs with
    | some v => jsDivMs v
    | none => .nan

/-- The two exceptions thrown by `normalizeTimes`: `invalidTime` is
"Invalid start/end time." (src/server.js:138) and `invalidRange` is
"End time must be after start time." (src/server.js:140).  Both belong to
the spec's `InvalidRange` error kind. -/
inductive NormError where
  | invalidTime : NormError
  | invalidRange : NormError
deriving DecidableEq

/-- The record returned by `normalizeTimes` (src/server.js:160). -/
structure NormResult where
  startSec : ℚ
  duration : ℚ
  forcePrecise : Bool
deriving DecidableEq

/-- `normalizeTimes` (src/server.js:123-161): compute the canonical range
and whether a precise re-encode is forced. -/
def normalizeTimes (r : TrimReq) : Except NormError NormResult :=
  match effStart r, effEnd r with
  | .fin s, .fin e =>
    if e ≤ s then .error .invalidRange
    else
      .ok { startSec := toFixed3 s
            duration := toFixed3 (toFixed3 e - toFixed3 s)
            forcePrecise :=
              (msFieldNonZero r.startMs || msFieldNonZero r.endMs) ||
                (hasFracPart (toFixed3 s) || hasFracPart (toFixed3 e)) }
  | _, _ => .error .invalidTime

/-- `const precise = forcePrecise || mode === "precise"`
(src/server.js:317); `explicitPrecise` embeds the string comparison
`mode === "precise"`. -/
def trimPrecise (nr : NormResult) (explicitPrecise : Bool) : Bool :=
  nr.forcePrecise || explicitPrecise

/-- A rational lies on the millisecond grid: it is `k / 1000` for an
integer `k`.  On these values JavaScript float rounding is exact. -/
def msExact (q : ℚ) : Prop :=
  ∃ k : ℤ, q = (k : ℚ) / 1000

/-! ### Decimal strings: `String(n)`, `padStart`, the timestamp template and
the timestamp regular expression of `parseTimeInputs` -/

/-- The decimal digit character of a digit value, as produced by
`String(n)`. -/
def digitChar : ℕ → Char
  | 0 => '0'
  | 1 => '1'
  | 2 => '2'
  | 3 => '3'
  | 4 => '4'
  | 5 => '5'
  | 6 => '6'
  | 7 => '7'
  | 8 => '8'
  | _ => '9'

/-- The digit value of a character, `none` on non-digits: the semantics of
the `\d` character class. -/
def digitVal? (c : Char) : Option ℕ :=
  if '0' ≤ c ∧ c ≤ '9' then some (c.toNat - 48) else none

/-- Read the maximal leading run of digits, returning their values and the
remainder of the input. -/
def readDigits : List Char → List ℕ × List Char
  | [] => ([], [])
  | c :: cs =>
    match digitVal? c with
    | some d =>
      let p := readDigits cs
      (d :: p.1, p.2)
    | none => ([], c :: cs)

/-- The numeric value of a big-endian digit list, as computed by the unary
`+` on a captured digit group. -/
def natOfDigits (l : List ℕ) : ℕ :=
  l.foldl (fun a d => 10 * a + d) 0

/-- The digit values of the decimal representation `String(n)`,
big-endian. -/
def strVals (n : ℕ) : List ℕ :=
  if n = 0 then [0] else (Nat.digits 10 n).reverse

/-- `String(n)`: the decimal representation of a natural number. -/
def natStr (n : ℕ) : List Char :=
  (strVals n).map digitChar

/-- Digit values of `String(n).padStart(k, "0")`
(src/server.js:519-520). -/
def padDigits (n k : ℕ) : List ℕ :=
  List.replicate (k - (strVals n).length) 0 ++ strVals n

/-- `String(n).padStart(k, "0")` (src/server.js:519). -/
def pad (n k : ℕ) : List Char :=
  List.replicate (k - (natStr n).length) '0' ++ natStr n

/-- `msToTimestamp` (src/server.js:512-521): render a number of
milliseconds as `HH:MM:SS.mmm` (with a leading `-` on negative input). -/
def msToTimestamp (ms : ℤ) : List Char :=
  let sign : List Char := if ms < 0 then ['-'] else []
  let m : ℕ := (max 0 |ms|).toNat
  let hh := m / 3600000
  let mm := (m % 3600000) / 60000
  let ss := (m % 60000) / 1000
  let mmm := m % 1000
  sign ++ (pad hh 2 ++ ':' :: (pad mm 2 ++ ':' :: (pad ss 2 ++ '.' :: pad mmm 3)))

/-- Whitespace characters stripped by `String.prototype.trim`. -/
def isSpaceChar (c : Char) : Bool :=
  c = ' ' || c = '\t' || c = '\n' || c = '\r'

/-- `String(ts).trim()` (src/server.js:562). -/
def jsTrim (l : List Char) : List Char :=
  (((l.dropWhile isSpaceChar).reverse).dropWhile isSpaceChar).reverse

/-- The constraint the pattern `[0-5]?\d` puts on a maximal digit run that
must be consumed entirely: one digit, or two digits whose first is at most
five. -/
def mmOK : List ℕ → Bool
  | [_] => true
  | [d1, _] => d1 ≤ 5
  | _ => false

/-- The literal `:` separating two groups of the pattern. -/
def expectColon : List Char → Option (List Char)
  | ':' :: r => some r
  | _ => none

/-- Consume a maximal digit run that the pattern `[0-5]?\d` must match
entirely (it is followed by a delimiter or the end), yielding its value
and the remainder. -/
def readGroup2 (l : List Char) : Option (ℕ × List Char) :=
  if mmOK (readDigits l).1 then some (natOfDigits (readDigits l).1, (readDigits l).2)
  else none

/-- The optional anchored fraction `(?:\.(\d{1,3}))?$`: nothing left means
no fraction (`+(ms || 0)` yields 0); otherwise a dot followed by one to
three digits ending the input. -/
def readFrac : List Char → Option ℕ
  | [] => some 0
  | '.' :: r =>
    if (readDigits r).1 ≠ [] ∧ (readDigits r).1.length ≤ 3 ∧ (readDigits r).2 = [] then
      some (natOfDigits (readDigits r).1)
    else none
  | _ => none

/-- The `toMs` closure of `parseTimeInputs` (src/server.js:561-566): match
`^(\d+):([0-5]?\d):([0-5]?\d)(?:\.(\d{1,3}))?$` against the trimmed input
and combine the captured groups as
`hh * 3600000 + mm * 60000 + ss * 1000 + frac`; `none` models the thrown
"Bad timestamp" error. -/
def toMs (ts : List Char) : Option ℕ :=
  let p1 := readDigits (jsTrim ts)
  if p1.1 = [] then none
  else
    (expectColon p1.2).bind fun r2 =>
      (readGroup2 r2).bind fun q2 =>
        (expectColon q2.2).bind fun r4 =>
          (readGroup2 r4).bind fun q3 =>
            (readFrac q3.2).map fun frac =>
              natOfDigits p1.1 * 3600000 + q2.1 * 60000 + q3.1 * 1000 + frac

/-! ### `parseTimeInputs` (src/server.js:545-570) -/

/-- The request fields read by `parseTimeInputs`.  `startMs`/`endMs` carry
the value of `Number(field)` when the field is non-null; `start`/`end` carry
the raw string of the query parameter (the GET transport always delivers
strings). -/
structure TimeQuery where
  startMs : Option JsNum
  endMs : Option JsNum
  start : Option (List Char)
  end_ : Option (List Char)
deriving DecidableEq

/-- The test `/^\d+(\.\d+)?$/.test(String(v))` (src/server.js:554). -/
def isNumStr (l : List Char) : Bool :=
  match readDigits l with
  | ([], _) => false
  | (_ :: _, r) =>
    match r with
    | [] => true
    | '.' :: rest =>
      match readDigits rest with
      | (_ :: _, []) => true
      | _ => false
    | _ => false

/-- `parseFloat` on a string accepted by `isNumStr`: integer part plus
decimal fraction. -/
def parseDecStr (l : List Char) : ℚ :=
  match readDigits l with
  | (ds, '.' :: rest) =>
    (natOfDigits ds : ℚ) +
      (natOfDigits (readDigits rest).1 : ℚ) / (10 : ℚ) ^ (readDigits rest).1.length
  | (ds, _) => (natOfDigits ds : ℚ)

/-- `Math.round`: round half toward positive infinity. -/
def jsMathRound (q : ℚ) : ℤ :=
  ⌊q + 1 / 2⌋

/-- The millisecond pair returned by `parseTimeInputs`
(src/server.js:552). -/
structure MsRange where
  startMs : ℚ
  endMs : ℚ
deriving DecidableEq

/-- The three exceptions of `parseTimeInputs`: "Invalid millisecond
values." (src/server.js:550), "Bad timestamp" (src/server.js:563) and
"Missing parameters." (src/server.js:569). -/
inductive PTError where
  | invalidMs : PTError
  | badTimestamp : PTError
  | missingParams : PTError
deriving DecidableEq

/-- `parseTimeInputs` (src/server.js:545-570): parse in priority order
millisecond pair, then numeric seconds, then `HH:MM:SS.mmm` timestamps. -/
def parseTimeInputs (q : TimeQuery) : Except PTError MsRange :=
  match q.startMs, q.endMs with
  | some a, some b =>
    match a, b with
    | .fin x, .fin y => .ok ⟨x, y⟩
    | _, _ => .error .invalidMs
  | _, _ =>
    match q.start, q.end_ with
    | some s, some e =>
      if isNumStr s && isNumStr e then
        .ok ⟨((jsMathRound (parseDecStr s * 1000) : ℤ) : ℚ),
             ((jsMathRound (parseDecStr e * 1000) : ℤ) : ℚ)⟩
      else if !s.isEmpty && !e.isEmpty then
        match toMs s, toMs e with
        | some m1, some m2 => .ok ⟨(m1 : ℚ), (m2 : ℚ)⟩
        | _, _ => .error .badTimestamp
      else .error .missingParams
    | _, _ => .error .missingParams

/-! ### Subprocess supervision for one encode job (C3, C4)

The encoder subprocess is supervised purely by event handlers.  An atomic
step of the job is the handling of one event:

* `tick`: one scheduling interval passes with no external event.  The
  source registers no timer for the encode (src/server.js:354-359 and
  61-113 contain no deadline logic), so time passing changes nothing but
  the clock.
* `resClose`: the delivering response's transport closes.  On the preview
  path `res.on("close", ...)` kills the process with SIGKILL
  (src/server.js:112); on the download path no close handler touching the
  process is registered (src/server.js:354-362).
* `procExit`: the subprocess exits by itself (`ff.on("close", ...)`). -/

/-- The two delivery paths of `app.post("/trim")`: streamed preview
(src/server.js:320-323) and write-to-temp-file download
(src/server.js:326-362). -/
inductive TrimPath where
  | preview : TrimPath
  | download : TrimPath
deriving DecidableEq

/-- Supervision state of one encode job's subprocess. -/
structure JobState where
  alive : Bool
  killed : Bool
  elapsedTicks : ℕ
deriving DecidableEq

/-- Events a running encode job can observe. -/
inductive JobEvent where
  | tick : JobEvent
  | resClose : JobEvent
  | procExit : ℤ → JobEvent

/-- One event-handling step of the supervision, translated from the
handlers registered in the source (see the section comment). -/
def jobStep (p : TrimPath) (s : JobState) : JobEvent → JobState
  | .tick => { s with elapsedTicks := s.elapsedTicks + 1 }
  | .resClose =>
    match p with
    | .preview => { s with alive := false, killed := true }
    | .download => s
  | .procExit _ => { s with alive := false }

/-- State immediately after `spawnFfmpeg` (src/server.js:42-45). -/
def jobInit : JobState :=
  ⟨true, false, 0⟩

/-- Run the supervision over a sequence of events. -/
def jobRun (p : TrimPath) (s : JobState) (evs : List JobEvent) : JobState :=
  evs.foldl (jobStep p) s

/-- Claim C3 as stated: every invocation carries a deadline after which a
subprocess that has not exited is forcibly terminated rather than left
running. -/
def TimeoutContract : Prop :=
  ∀ p : TrimPath, ∃ deadline : ℕ, ∀ n : ℕ, deadline ≤ n →
    (jobRun p jobInit (List.replicate n JobEvent.tick)).alive = false

/-! ### The concurrency gate with two concurrent trim jobs (C5)

`gate()` (src/server.js:32-40) rechecks `inFlight >= MAX_JOBS` and, in the
same synchronous segment, increments `inFlight`; `release()` decrements it
once, from the handler's `finally` (src/server.js:366-368).  Each job's
atomic steps are the synchronous segments between `await` points of
`app.post("/trim")` (src/server.js:302-369):

* `acquire`: the final loop check succeeds and `inFlight++` runs.
* `spawn` (download): `spawnFfmpeg` starts the encoder; the handler then
  awaits its exit.
* `encExit` (download): the encoder exits; `streamAndUnlink` and the
  `finally` run next.
* `release` (download): the `finally` decrements `inFlight`.
* `spawnRelease` (preview): `pipeFfmpegToResponse` spawns the encoder and
  returns immediately, so the `finally` releases the slot in the same
  synchronous segment — while the encoder is still running.
* `pipeExit` (preview): the piped encoder exits. -/

/-- Program counter of one trim job interacting with the gate. -/
inductive GPC where
  | waiting : GPC
  | prep : GPC
  | encoding : GPC
  | deliver : GPC
  | piping : GPC
  | done : GPC
deriving DecidableEq

/-- One job: its program counter and whether its encoder subprocess is
alive. -/
structure JState where
  pc : GPC
  enc : Bool
deriving DecidableEq

/-- The shared `inFlight` counter and the two jobs. -/
structure SysState where
  inFlight : ℕ
  j1 : JState
  j2 : JState
deriving DecidableEq

/-- `const MAX_JOBS = 1` (src/server.js:33). -/
def MAX_JOBS : ℕ := 1

/-- The atomic steps of one job of kind `k` against the gate counter. -/
inductive JStep : TrimPath → ℕ → JState → ℕ → JState → Prop where
  | acquire (k : TrimPath) (g : ℕ) (j : JState) :
      j.pc = .waiting → g < MAX_JOBS → JStep k g j (g + 1) ⟨.prep, j.enc⟩
  | spawn (g : ℕ) (j : JState) :
      j.pc = .prep → JStep .download g j g ⟨.encoding, true⟩
  | encExit (g : ℕ) (j : JState) :
      j.pc = .encoding → JStep .download g j g ⟨.deliver, false⟩
  | release (g : ℕ) (j : JState) :
      j.pc = .deliver → JStep .download g j (g - 1) ⟨.done, j.enc⟩
  | spawnRelease (g : ℕ) (j : JState) :
      j.pc = .prep → JStep .preview g j (g - 1) ⟨.piping, true⟩
  | pipeExit (g : ℕ) (j : JState) :
      j.pc = .piping → JStep .preview g j g ⟨.done, false⟩

/-- Interleaving of the two jobs (kinds `k1`, `k2`). -/
inductive SysStep (k1 k2 : TrimPath) : SysState → SysState → Prop where
  | left {s : SysState} {g : ℕ} {j : JState} :
      JStep k1 s.inFlight s.j1 g j → SysStep k1 k2 s ⟨g, j, s.j2⟩
  | right {s : SysState} {g : ℕ} {j : JState} :
      JStep k2 s.inFlight s.j2 g j → SysStep k1 k2 s ⟨g, s.j1, j⟩

/-- Both jobs submitted, none admitted, counter zero. -/
def sysInit : SysState :=
  ⟨0, ⟨.waiting, false⟩, ⟨.waiting, false⟩⟩

/-- States reachable by any interleaving of the two jobs. -/
inductive Reachable (k1 k2 : TrimPath) : SysState → Prop where
  | init : Reachable k1 k2 sysInit
  | step {s s' : SysState} :
      Reachable k1 k2 s → SysStep k1 k2 s s' → Reachable k1 k2 s'

/-- Whether a job currently holds a gate slot. -/
def slot (j : JState) : ℕ :=
  match j.pc with
  | .prep => 1
  | .encoding => 1
  | .deliver => 1
  | _ => 0

/-- Where a job's encoder can be alive: inside the slot for a download
job, in the post-release piping phase for a preview job. -/
def encConsistent (k : TrimPath) (j : JState) : Prop :=
  j.enc = true →
    j.pc = (match k with | .download => GPC.encoding | .preview => GPC.piping)

/-- The inductive invariant of the gate system. -/
def GateInv (k1 k2 : TrimPath) (s : SysState) : Prop :=
  s.inFlight = slot s.j1 + slot s.j2 ∧ s.inFlight ≤ MAX_JOBS ∧
    encConsistent k1 s.j1 ∧ encConsistent k2 s.j2

/-! ### Source fetch with integrity verification (C7)

The second revision's `downloadFile` (src/server.js:587-604) and
`isCompleteFile` (src/server.js:499-506), plus the caller's input
resolution (src/server.js:707-722, 763-772). -/

/-- The temp directory: sizes of the files on disk. -/
def FS : Type := String → Option ℕ

/-- `fs.statSync(p).size`, `none` when the file does not exist. -/
def statSize (fs : FS) (p : String) : Option ℕ :=
  fs p

/-- `isCompleteFile` (src/server.js:499-506): the file exists and its size
equals the expected size; a stat failure yields `false`. -/
def isCompleteFile (fs : FS) (p : String) (expectedSize : ℕ) : Bool :=
  statSize fs p == some expectedSize

/-- The failures of `downloadFile`: a non-success upstream response
(src/server.js:590) or a size mismatch after the write
(src/server.js:600-603). -/
inductive DlError where
  | fetchFailed : DlError
  | integrityError : DlError
deriving DecidableEq

/-- Writing the fetched body to `p`. -/
def writeFile (fs : FS) (p : String) (n : ℕ) : FS :=
  Function.update fs p (some n)

/-- `fs.unlinkSync(p)` (errors swallowed). -/
def unlinkFile (fs : FS) (p : String) : FS :=
  Function.update fs p none

/-- `downloadFile` (src/server.js:587-604): fetch (`fetched` is the byte
count delivered, `none` for a non-ok response), write the file, then
verify the size and delete the file on mismatch.  Exactly one fetch is
attempted. -/
def downloadFile (fs : FS) (p : String) (expectedSize : ℕ)
    (fetched : Option ℕ) : FS × Option DlError :=
  match fetched with
  | none => (fs, some .fetchFailed)
  | some bytes =>
    let fs1 := writeFile fs p bytes
    if isCompleteFile fs1 p expectedSize then (fs1, none)
    else (unlinkFile fs1 p, some .integrityError)

/-- How a trim request obtains its encoder input. -/
inductive SrcChoice where
  | httpInput : SrcChoice
  | cached : SrcChoice
  | fetch : SrcChoice
deriving DecidableEq

/-- Input resolution of the trim routes (src/server.js:707-722 for POST,
763-772 for GET): HTTP input when caching is disabled; otherwise reuse a
verified complete local copy, or fetch (except that a POST preview falls
back to HTTP input instead of fetching). -/
def chooseInput (disableCache : Bool) (fs : FS) (p : String) (size : ℕ)
    (preview : Bool) : SrcChoice :=
  if disableCache then .httpInput
  else if !isCompleteFile fs p size then
    (if preview then .httpInput else .fetch)
  else .cached

/-! ### Observable effect order of `app.post("/trim")` (C8)

Straight-line translation of src/server.js:302-369: the gate is acquired
first (line 306), then metadata is fetched (line 308), then the source is
downloaded if absent (lines 311-314), and only then is the range
validated by `normalizeTimes` (line 316); errors are answered from the
`catch` (line 365) and the `finally` releases the gate (line 367).
Metadata retrieval is assumed to succeed; its own failure path does not
involve the range. -/

/-- Observable effects of one POST /trim request. -/
inductive Eff where
  | gateAcquire : Eff
  | gateRelease : Eff
  | metadata : Eff
  | sourceDownload : Eff
  | runEncoder : Eff
  | respondOk : Eff
  | respondError : Eff
deriving DecidableEq

/-- The ordered effects of `app.post("/trim")` (src/server.js:302-369) for
a request with time fields `r`; `hasFileId` is the guard of line 304,
`cached` tells whether the source file already exists (line 311),
`preview` selects the delivery path (line 320). -/
def postTrim (hasFileId cached preview : Bool) (r : TrimReq) : List Eff :=
  if !hasFileId then [.respondError]
  else
    [Eff.gateAcquire, Eff.metadata] ++
      (if cached then [] else [Eff.sourceDownload]) ++
      (match normalizeTimes r with
       | .error _ => [Eff.respondError]
       | .ok _ => Eff.runEncoder :: (if preview then [] else [Eff.respondOk])) ++
      [Eff.gateRelease]

/-- Claim C8 as stated: an invalid range is rejected without acquiring a
gate slot and without fetching the source. -/
def ValidateBeforeGateContract : Prop :=
  ∀ (hasFileId cached preview : Bool) (r : TrimReq) (err : NormError),
    normalizeTimes r = .error err →
      Eff.gateAcquire ∉ postTrim hasFileId cached preview r ∧
        Eff.sourceDownload ∉ postTrim hasFileId cached preview r

/-! ### `streamFile` byte-range delivery (C9) -/

/-- A parsed `Range: bytes=a-` or `Range: bytes=a-b` header: the result of
`range.replace(/bytes=/, "").split("-")` with `parseInt` applied to the
parts (src/server.js:232-234); `endPart` is `none` when the second part is
empty. -/
structure ByteRange where
  start : ℤ
  endPart : Option ℤ
deriving DecidableEq

/-- The status line and headers written by `streamFile`. -/
structure HttpHead where
  status : ℕ
  contentRange : Option (ℤ × ℤ × ℤ)
  contentLength : ℤ
deriving DecidableEq

/-- `streamFile` (src/server.js:226-252): 206 with `Content-Range:
bytes start-end/fileSize` and `Content-Length: end - start + 1` for a
range request (an absent end defaults to `fileSize - 1`), 200 with the
full length otherwise. -/
def streamFile (range : Option ByteRange) (fileSize : ℤ) : HttpHead :=
  match range with
  | some rh =>
    let s := rh.start
    let e := match rh.endPart with | some v => v | none => fileSize - 1
    ⟨206, some (s, e, fileSize), e - s + 1⟩
  | none => ⟨200, none, fileSize⟩

/-! ### Concrete requests used by counterexamples and witnesses -/

/-- A request giving both bounds as whole seconds and, redundantly, as
milliseconds with a non-zero sub-second part:
`start=2, end=5, startMs=2500, endMs=5000`. -/
def reqMixed : TrimReq :=
  ⟨some (.fin 2), some (.fin 5), some (.fin 2500), some (.fin 5000)⟩

/-- A request giving bounds both as seconds (2..5) and as a millisecond
pair (7000..9000): `start=2, end=5, startMs=7000, endMs=9000`. -/
def reqSecondsWins : TrimReq :=
  ⟨some (.fin 2), some (.fin 5), some (.fin 7000), some (.fin 9000)⟩

/-- A request whose range is backwards: `start=5, end=2`. -/
def reqBackwards : TrimReq :=
  ⟨some (.fin 5), some (.fin 2), none, none⟩

/-! ## Theorems -/

/-! ### Helper lemmas for the normalizer -/

theorem toFixed3_eq_self {q : ℚ} (h : msExact q) : toFixed3 q = q := by
  obtain ⟨k, rfl⟩ := h
  unfold toFixed3
  rw [div_mul_cancel₀ _ (by norm_num : (1000 : ℚ) ≠ 0), round_intCast]

theorem msExact_sub {a b : ℚ} (ha : msExact a) (hb : msExact b) : msExact (a - b) := by
  obtain ⟨k, rfl⟩ := ha
  obtain ⟨l, rfl⟩ := hb
  exact ⟨k - l, by push_cast; ring⟩

theorem normTimes_reqMixed : normalizeTimes reqMixed = .ok ⟨2, 3, true⟩ := by
  have h1 : toFixed3 2 = 2 := toFixed3_eq_self ⟨2000, by norm_num⟩
  have h2 : toFixed3 5 = 5 := toFixed3_eq_self ⟨5000, by norm_num⟩
  have h3 : toFixed3 (5 - 2 : ℚ) = 3 := by
    rw [toFixed3_eq_self ⟨3000, by norm_num⟩]; norm_num
  simp [normalizeTimes, reqMixed, effStart, effEnd, h1, h2, h3,
    msFieldNonZero, jsTrunc, hasFracPart]
  norm_num

theorem normTimes_reqBackwards : normalizeTimes reqBackwards = .error .invalidRange := by
  simp [normalizeTimes, reqBackwards, effStart, effEnd]
  norm_num

/-- Claim C2: for finite bounds with `end > start` the normalizer returns
the range with `duration = end - start` exactly (stated on
millisecond-exact inputs, where JavaScript's `toFixed(3)` rounding is the
identity); for `end <= start` it fails with the range-order error and for
any non-finite bound with the invalid-time error — both mapped to the
spec's `InvalidRange` — returning no range. -/
theorem normalizeTimes_duration_exact (r : TrimReq) :
    (∀ s e : ℚ, effStart r = .fin s → effEnd r = .fin e → msExact s → msExact e →
      s < e → ∃ fp : Bool, normalizeTimes r = .ok ⟨s, e - s, fp⟩) ∧
    (∀ s e : ℚ, effStart r = .fin s → effEnd r = .fin e → e ≤ s →
      normalizeTimes r = .error .invalidRange) ∧
    ((effStart r = .nan ∨ effEnd r = .nan) → normalizeTimes r = .error .invalidTime) := by
  refine ⟨?_, ?_, ?_⟩
  · intro s e hs he hms hme hlt
    have h1 : toFixed3 s = s := toFixed3_eq_self hms
    have h2 : toFixed3 e = e := toFixed3_eq_self hme
    have h3 : toFixed3 (e - s) = e - s := toFixed3_eq_self (msExact_sub hme hms)
    refine ⟨(msFieldNonZero r.startMs || msFieldNonZero r.endMs) ||
      (hasFracPart s || hasFracPart e), ?_⟩
    simp only [normalizeTimes, hs, he, if_neg (not_le.mpr hlt), h1, h2, h3]
  · intro s e hs he hle
    simp only [normalizeTimes, hs, he, if_pos hle]
  · intro h
    cases hS : effStart r with
    | nan => simp only [normalizeTimes, hS]
    | fin s =>
      cases hE : effEnd r with
      | nan => simp only [normalizeTimes, hS, hE]
      | fin e =>
        rcases h with h | h
        · rw [hS] at h; exact absurd h (by simp)
        · rw [hE] at h; exact absurd h (by simp)

/-- Witness for C2 at `start = 1 s`, `end = 2.5 s`. -/
theorem normalizeTimes_duration_exact_witness :
    ∃ fp : Bool, normalizeTimes ⟨some (.fin 1), some (.fin (5 / 2)), none, none⟩ =
      .ok ⟨1, 5 / 2 - 1, fp⟩ :=
  (normalizeTimes_duration_exact _).1 1 (5 / 2) rfl rfl
    ⟨1000, by norm_num⟩ ⟨2500, by norm_num⟩ (by norm_num)

/-- Counterexample to claim C1 as stated: for the request
`start=2, end=5, startMs=2500, endMs=5000` the canonical bounds are the
whole seconds 2 and 5 = 2 + 3 (no bound carries a non-zero sub-second
component) and no explicit "precise" override is supplied, yet the
selected mode is Precise, because `msNonZero` inspects the raw `startMs`
field even when the seconds field supersedes it. -/
theorem precise_mode_not_iff_subsecond :
    normalizeTimes reqMixed = .ok ⟨2, 3, true⟩ ∧
    trimPrecise ⟨2, 3, true⟩ false = true ∧
    hasFracPart (2 : ℚ) = false ∧ hasFracPart ((2 : ℚ) + 3) = false := by
  refine ⟨normTimes_reqMixed, rfl, ?_, ?_⟩ <;> norm_num [hasFracPart]

/-- Claim C1 (amended): for every normalized request the selected mode is
Precise iff a supplied raw millisecond field is not a whole multiple of
1000 (even when a seconds field supersedes it for the range computation),
or a canonical bound carries a non-zero sub-second component, or the
caller explicitly supplied the "precise" override; in particular an
explicit override can force Precise but can never force Copy. -/
theorem precise_mode_characterization (r : TrimReq) (explicitPrecise : Bool)
    (nr : NormResult) (s e : ℚ) (hs : effStart r = .fin s) (he : effEnd r = .fin e)
    (h : normalizeTimes r = .ok nr) :
    trimPrecise nr explicitPrecise = true ↔
      (msFieldNonZero r.startMs = true ∨ msFieldNonZero r.endMs = true ∨
        hasFracPart (toFixed3 s) = true ∨ hasFracPart (toFixed3 e) = true ∨
        explicitPrecise = true) := by
  simp only [normalizeTimes, hs, he] at h
  by_cases hle : e ≤ s
  · rw [if_pos hle] at h; exact absurd h (by simp)
  · rw [if_neg hle] at h
    injection h with h2
    subst h2
    simp [trimPrecise, Bool.or_eq_true, or_assoc]

/-- Witness for the amended C1 at the request
`start=2, end=5, startMs=2500, endMs=5000` with no override. -/
theorem precise_mode_characterization_witness :
    trimPrecise ⟨2, 3, true⟩ false = true ↔
      (msFieldNonZero reqMixed.startMs = true ∨ msFieldNonZero reqMixed.endMs = true ∨
        hasFracPart (toFixed3 2) = true ∨ hasFracPart (toFixed3 5) = true ∨
        false = true) :=
  precise_mode_characterization reqMixed false ⟨2, 3, true⟩ 2 5 rfl rfl normTimes_reqMixed

/-- Counterexample to claim C6 as stated: `normalizeTimes` derives each
bound from the seconds field in preference to the millisecond field.  For
`start=2, end=5, startMs=7000, endMs=9000` the canonical range starts at
2 s, not at the 7 s that the millisecond pair (`7000 / 1000`) would give. -/
theorem normalizeTimes_seconds_priority_cex :
    normalizeTimes reqSecondsWins = .ok ⟨2, 3, false⟩ ∧
    jsDivMs (.fin 7000) = .fin 7 ∧ (2 : ℚ) ≠ 7 := by
  refine ⟨?_, ?_, by norm_num⟩
  · have h1 : toFixed3 2 = 2 := toFixed3_eq_self ⟨2000, by norm_num⟩
    have h2 : toFixed3 5 = 5 := toFixed3_eq_self ⟨5000, by norm_num⟩
    have h3 : toFixed3 (5 - 2 : ℚ) = 3 := by
      rw [toFixed3_eq_self ⟨3000, by norm_num⟩]; norm_num
    simp [normalizeTimes, reqSecondsWins, effStart, effEnd, h1, h2, h3,
      msFieldNonZero, jsTrunc, hasFracPart]
    norm_num
  · simp [jsDivMs]
    norm_num

/-- Claim C6 (amended): `parseTimeInputs` does parse in priority order
millisecond pair, then numeric seconds, then timestamp — for every request
carrying a millisecond pair the canonical range is computed from it,
whatever the seconds fields hold; `normalizeTimes`, by contrast, derives
each bound from the seconds field when present, falling back to the
millisecond field. -/
theorem parseTimeInputs_ms_priority :
    (∀ (q : TimeQuery) (a b : ℚ), q.startMs = some (.fin a) → q.endMs = some (.fin b) →
      parseTimeInputs q = .ok ⟨a, b⟩) ∧
    (∀ (r : TrimReq) (sv ev : JsNum), r.start = some sv → r.end_ = some ev →
      effStart r = sv ∧ effEnd r = ev) := by
  constructor
  · intro q a b h1 h2
    simp only [parseTimeInputs, h1, h2]
  · intro r sv ev h1 h2
    exact ⟨by simp [effStart, h1], by simp [effEnd, h2]⟩

/-- Witness for the amended C6: a query carrying the millisecond pair
7000..9000 and the seconds pair "2".."5" parses to the millisecond pair,
while `normalizeTimes` on `reqSecondsWins` takes the seconds bounds. -/
theorem parseTimeInputs_ms_priority_witness :
    parseTimeInputs ⟨some (.fin 7000), some (.fin 9000), some ['2'], some ['5']⟩ =
      .ok ⟨7000, 9000⟩ ∧
    effStart reqSecondsWins = .fin 2 ∧ effEnd reqSecondsWins = .fin 5 :=
  ⟨parseTimeInputs_ms_priority.1 _ 7000 9000 rfl rfl,
    (parseTimeInputs_ms_priority.2 reqSecondsWins _ _ rfl rfl).1,
    (parseTimeInputs_ms_priority.2 reqSecondsWins _ _ rfl rfl).2⟩

/-! ### C3 and C4: deadlines and disconnect handling -/

theorem jobRun_ticks_general (p : TrimPath) :
    ∀ (n : ℕ) (s : JobState),
      jobRun p s (List.replicate n JobEvent.tick) =
        ⟨s.alive, s.killed, s.elapsedTicks + n⟩ := by
  intro n
  induction n with
  | zero => intro s; simp [jobRun]
  | succ k ih =>
    intro s
    rw [List.replicate_succ]
    show jobRun p (jobStep p s .tick) (List.replicate k JobEvent.tick) = _
    rw [ih]
    simp [jobStep]
    omega

/-- Counterexample to claim C3 as stated: no deadline exists — whatever
deadline one proposes, a subprocess that never exits is still alive after
that many scheduling intervals, on either delivery path, because the
source registers no timer for the encode. -/
theorem no_deadline_counterexample : ¬ TimeoutContract := by
  intro h
  obtain ⟨D, hD⟩ := h .download
  have h1 := hD D le_rfl
  rw [jobRun_ticks_general] at h1
  simp [jobInit] at h1

/-- Claim C3 (amended): no encoder invocation carries a deadline — the
passage of time alone never terminates the subprocess or fails the job on
either path, and no `EncodeTimeout` failure mode exists in the code. -/
theorem encoder_never_timed_out (p : TrimPath) (n : ℕ) :
    jobRun p jobInit (List.replicate n JobEvent.tick) = ⟨true, false, n⟩ := by
  rw [jobRun_ticks_general]
  simp [jobInit]

/-- Counterexample to claim C4 as stated: on the write-to-temp-file
download path a client disconnect is not handled at all — the supervision
state, encoder still alive, is unchanged. -/
theorem download_disconnect_no_kill :
    jobStep .download jobInit .resClose = jobInit ∧ jobInit.alive = true :=
  ⟨rfl, rfl⟩

/-- Claim C4 (amended): a client disconnect kills the encoder within the
same event-handling step on the streamed-preview path, while on the
write-to-temp-file download path no disconnect handler is registered and
the encoder keeps running. -/
theorem disconnect_kill_behavior :
    (∀ s : JobState, jobStep .preview s .resClose = ⟨false, true, s.elapsedTicks⟩) ∧
    (∀ s : JobState, jobStep .download s .resClose = s) :=
  ⟨fun _ => rfl, fun _ => rfl⟩

/-! ### C8: effect order around range validation -/

/-- Counterexample to claim C8 as stated: for the invalid range
`start=5, end=2` (uncached source) the handler acquires the gate and
downloads the source before the range is validated. -/
theorem invalid_range_after_gate_cex :
    postTrim true false false reqBackwards =
      [.gateAcquire, .metadata, .sourceDownload, .respondError, .gateRelease] ∧
    Eff.gateAcquire ∈ postTrim true false false reqBackwards ∧
    Eff.sourceDownload ∈ postTrim true false false reqBackwards ∧
    ¬ ValidateBeforeGateContract := by
  have hlist : postTrim true false false reqBackwards =
      [.gateAcquire, .metadata, .sourceDownload, .respondError, .gateRelease] := by
    simp [postTrim, normTimes_reqBackwards]
  refine ⟨hlist, by rw [hlist]; decide, by rw [hlist]; decide, ?_⟩
  intro h
  obtain ⟨h1, _⟩ := h true false false reqBackwards _ normTimes_reqBackwards
  exact h1 (by rw [hlist]; decide)

/-- Claim C8 (amended): for an invalid range the error is surfaced without
ever spawning the encoder, and the gate slot — which, contrary to the
claim, is acquired before validation (as the source may also be
downloaded before validation) — is released as the final effect. -/
theorem invalid_range_no_encoder (hasFileId cached preview : Bool) (r : TrimReq)
    (err : NormError) (h : normalizeTimes r = .error err) :
    Eff.runEncoder ∉ postTrim hasFileId cached preview r ∧
    Eff.respondError ∈ postTrim hasFileId cached preview r ∧
    (hasFileId = true →
      (postTrim hasFileId cached preview r).getLast? = some Eff.gateRelease) := by
  rcases hasFileId with _ | _ <;> rcases cached with _ | _ <;>
    rcases preview with _ | _ <;> simp [postTrim, h]

/-- Witness for the amended C8 at the backwards range `start=5, end=2`. -/
theorem invalid_range_no_encoder_witness :
    Eff.runEncoder ∉ postTrim true false false reqBackwards ∧
    Eff.respondError ∈ postTrim true false false reqBackwards ∧
    (true = true →
      (postTrim true false false reqBackwards).getLast? = some Eff.gateRelease) :=
  invalid_range_no_encoder true false false reqBackwards .invalidRange
    normTimes_reqBackwards

/-! ### C7: integrity verification of fetched sources -/

/-- Claim C7: a fetch delivering a byte count different from the expected
size yields `integrityError` from the single fetch attempt (no retry), the
partial file is deleted, and a subsequent (non-preview, cache-enabled)
request chooses to fetch again rather than reuse the file. -/
theorem integrity_error_deletes_and_refetches (fs : FS) (p : String)
    (size bytes : ℕ) (h : bytes ≠ size) :
    (downloadFile fs p size (some bytes)).2 = some .integrityError ∧
    statSize (downloadFile fs p size (some bytes)).1 p = none ∧
    chooseInput false (downloadFile fs p size (some bytes)).1 p size false = .fetch := by
  have hc : isCompleteFile (writeFile fs p bytes) p size = false := by
    simp [isCompleteFile, statSize, writeFile, Function.update_same, h]
  have hdl : downloadFile fs p size (some bytes) =
      (unlinkFile (writeFile fs p bytes) p, some .integrityError) := by
    simp [downloadFile, hc]
  rw [hdl]
  have hstat : statSize (unlinkFile (writeFile fs p bytes) p) p = none := by
    simp [statSize, unlinkFile, Function.update_same]
  refine ⟨rfl, hstat, ?_⟩
  simp [chooseInput, isCompleteFile, hstat]

/-- Witness for C7: an empty temp directory, an expected size of 10 bytes
and a truncated 7-byte fetch. -/
theorem integrity_error_deletes_and_refetches_witness :
    (downloadFile (fun _ => none : FS) ("video.mp4") 10 (some 7)).2 =
      some .integrityError ∧
    statSize (downloadFile (fun _ => none : FS) ("video.mp4") 10 (some 7)).1
      ("video.mp4") = none ∧
    chooseInput false (downloadFile (fun _ => none : FS) ("video.mp4") 10 (some 7)).1
      ("video.mp4") 10 false = .fetch :=
  integrity_error_deletes_and_refetches _ _ _ _ (by decide)

/-! ### C9: byte-range delivery -/

/-- Claim C9: a request with a byte-range header gets a 206 whose
`Content-Range` is `bytes start-end/fileSize` and whose `Content-Length`
is `end - start + 1` (an absent end defaulting to `fileSize - 1`); a
request without one gets a 200 carrying the full file length. -/
theorem streamFile_range_semantics (fileSize s : ℤ) (ePart : Option ℤ) :
    streamFile (some ⟨s, ePart⟩) fileSize =
      ⟨206, some (s, ePart.getD (fileSize - 1), fileSize),
        ePart.getD (fileSize - 1) - s + 1⟩ ∧
    streamFile none fileSize = ⟨200, none, fileSize⟩ := by
  cases ePart <;> exact ⟨rfl, rfl⟩

/-! ### C5: the concurrency gate -/

theorem encConsistent_enc_false {k : TrimPath} {j : JState} (h : encConsistent k j)
    (h1 : j.pc ≠ GPC.encoding) (h2 : j.pc ≠ GPC.piping) : j.enc = false := by
  cases he : j.enc
  · rfl
  · have hp := h he
    cases k <;> simp_all

theorem jstep_preserve {k : TrimPath} {g : ℕ} {j : JState} {g' : ℕ} {j' : JState}
    {other : ℕ} (h : JStep k g j g' j') (hsum : g = slot j + other)
    (hle : g ≤ MAX_JOBS) (hc : encConsistent k j) :
    g' = slot j' + other ∧ g' ≤ MAX_JOBS ∧ encConsistent k j' := by
  cases h with
  | acquire k g j hpc hlt =>
    have henc : j.enc = false :=
      encConsistent_enc_false hc (by rw [hpc]; simp) (by rw [hpc]; simp)
    refine ⟨?_, by omega, ?_⟩
    · simp only [slot, hpc] at hsum
      simp only [slot]
      omega
    · intro habs
      rw [henc] at habs
      cases habs
  | spawn g j hpc =>
    refine ⟨?_, hle, ?_⟩
    · simp only [slot, hpc] at hsum
      simpa only [slot] using hsum
    · intro _; rfl
  | encExit g j hpc =>
    refine ⟨?_, hle, ?_⟩
    · simp only [slot, hpc] at hsum
      simpa only [slot] using hsum
    · intro habs; cases habs
  | release g j hpc =>
    have henc : j.enc = false :=
      encConsistent_enc_false hc (by rw [hpc]; simp) (by rw [hpc]; simp)
    refine ⟨?_, by omega, ?_⟩
    · simp only [slot, hpc] at hsum
      simp only [slot]
      omega
    · intro habs
      rw [henc] at habs
      cases habs
  | spawnRelease g j hpc =>
    refine ⟨?_, by omega, ?_⟩
    · simp only [slot, hpc] at hsum
      simp only [slot]
      omega
    · intro _; rfl
  | pipeExit g j hpc =>
    refine ⟨?_, hle, ?_⟩
    · simp only [slot, hpc] at hsum
      simpa only [slot] using hsum
    · intro habs; cases habs

theorem gateInv_init (k1 k2 : TrimPath) : GateInv k1 k2 sysInit :=
  ⟨rfl, by decide, fun habs => absurd habs (by decide),
    fun habs => absurd habs (by decide)⟩

theorem gateInv_step {k1 k2 : TrimPath} {s s' : SysState}
    (hinv : GateInv k1 k2 s) (hs : SysStep k1 k2 s s') : GateInv k1 k2 s' := by
  obtain ⟨hsum, hle, hc1, hc2⟩ := hinv
  cases hs with
  | left h =>
    obtain ⟨a, b, c⟩ := jstep_preserve h hsum hle hc1
    exact ⟨a, b, c, hc2⟩
  | right h =>
    obtain ⟨a, b, c⟩ := jstep_preserve h (hsum.trans (Nat.add_comm _ _)) hle hc2
    exact ⟨a.trans (Nat.add_comm _ _), b, hc1, c⟩

theorem gateInv_reachable {k1 k2 : TrimPath} {s : SysState}
    (h : Reachable k1 k2 s) : GateInv k1 k2 s := by
  induction h with
  | init => exact gateInv_init k1 k2
  | step _ hs ih => exact gateInv_step ih hs

/-- Counterexample to claim C5 as stated: with two concurrently submitted
preview jobs the state in which both encoders are alive simultaneously is
reachable — job 1 spawns its encoder and releases the slot in the same
synchronous segment, so job 2 is admitted and spawns while job 1's
encoder is still running. -/
theorem preview_encoders_overlap :
    Reachable .preview .preview ⟨0, ⟨.piping, true⟩, ⟨.piping, true⟩⟩ ∧
    (JState.mk .piping true).enc = true := by
  refine ⟨?_, rfl⟩
  have s1 : Reachable .preview .preview ⟨1, ⟨.prep, false⟩, ⟨.waiting, false⟩⟩ :=
    .step .init (.left (.acquire _ _ _ rfl (by decide)))
  have s2 : Reachable .preview .preview ⟨0, ⟨.piping, true⟩, ⟨.waiting, false⟩⟩ :=
    .step s1 (.left (.spawnRelease _ _ rfl))
  have s3 : Reachable .preview .preview ⟨1, ⟨.piping, true⟩, ⟨.prep, false⟩⟩ :=
    .step s2 (.right (.acquire _ _ _ rfl (by decide)))
  exact .step s3 (.right (.spawnRelease _ _ rfl))

/-- Claim C5 (amended): in every reachable state the in-flight count never
exceeds the gate capacity (so the second job is admitted only after the
first releases its slot), and for two download jobs the encoder-running
intervals never overlap; for preview jobs the slot is released at spawn
time, so their encoders may overlap (see the counterexample). -/
theorem gate_capacity_and_download_exclusion (k1 k2 : TrimPath) (s : SysState)
    (h : Reachable k1 k2 s) :
    s.inFlight ≤ MAX_JOBS ∧
      (k1 = .download → k2 = .download →
        ¬(s.j1.enc = true ∧ s.j2.enc = true)) := by
  obtain ⟨hsum, hle, hc1, hc2⟩ := gateInv_reachable h
  refine ⟨hle, ?_⟩
  rintro rfl rfl ⟨h1, h2⟩
  have p1 := hc1 h1
  have p2 := hc2 h2
  rw [hsum] at hle
  simp only [slot, p1] at hle
  simp only [slot, p2] at hle
  simp [MAX_JOBS] at hle

/-- Witness for the amended C5 at the initial state with two download
jobs. -/
theorem gate_capacity_and_download_exclusion_witness :
    sysInit.inFlight ≤ MAX_JOBS ∧
      ¬(sysInit.j1.enc = true ∧ sysInit.j2.enc = true) :=
  ⟨(gate_capacity_and_download_exclusion .download .download sysInit .init).1,
    (gate_capacity_and_download_exclusion .download .download sysInit .init).2 rfl rfl⟩

/-! ### C10: `msToTimestamp` / timestamp-parse round trip -/

theorem digitChar_zero : digitChar 0 = '0' := rfl

theorem digitVal?_digitChar {d : ℕ} (h : d < 10) : digitVal? (digitChar d) = some d := by
  interval_cases d <;> decide

theorem isSpaceChar_digitChar (d : ℕ) : isSpaceChar (digitChar d) = false := by
  unfold digitChar
  split <;> decide

theorem readDigits_map (ds : List ℕ) (h : ∀ d ∈ ds, d < 10) (rest : List Char)
    (hrest : rest = [] ∨ ∃ c cs, rest = c :: cs ∧ digitVal? c = none) :
    readDigits (ds.map digitChar ++ rest) = (ds, rest) := by
  induction ds with
  | nil =>
    rcases hrest with rfl | ⟨c, cs, rfl, hc⟩
    · rfl
    · simp [readDigits, hc]
  | cons d ds ih =>
    have hd : d < 10 := h d (List.mem_cons_self _ _)
    have hds : ∀ x ∈ ds, x < 10 := fun x hx => h x (List.mem_cons_of_mem _ hx)
    simp [readDigits, digitVal?_digitChar hd, ih hds]

theorem strVals_ne_nil (n : ℕ) : strVals n ≠ [] := by
  unfold strVals
  split
  · simp
  · simp [Nat.digits_ne_nil_iff_ne_zero, *]

theorem strVals_lt_ten (n : ℕ) : ∀ d ∈ strVals n, d < 10 := by
  intro d hd
  unfold strVals at hd
  split at hd
  · simp at hd; omega
  · exact Nat.digits_lt_base (by norm_num) (List.mem_reverse.1 hd)

theorem padDigits_lt_ten (n k : ℕ) : ∀ d ∈ padDigits n k, d < 10 := by
  intro d hd
  rcases List.mem_append.1 hd with hd | hd
  · have := List.eq_of_mem_replicate hd
    omega
  · exact strVals_lt_ten n d hd

theorem padDigits_ne_nil (n k : ℕ) : padDigits n k ≠ [] := by
  intro h
  exact strVals_ne_nil n (List.append_eq_nil.1 h).2

theorem pad_eq_map (n k : ℕ) : pad n k = (padDigits n k).map digitChar := by
  unfold pad padDigits natStr
  rw [List.map_append, List.map_replicate, digitChar_zero, List.length_map]

theorem readDigits_pad (n k : ℕ) (rest : List Char)
    (hrest : rest = [] ∨ ∃ c cs, rest = c :: cs ∧ digitVal? c = none) :
    readDigits (pad n k ++ rest) = (padDigits n k, rest) := by
  rw [pad_eq_map]
  exact readDigits_map _ (padDigits_lt_ten n k) rest hrest

theorem natOfDigits_replicate_zero (j : ℕ) (l : List ℕ) :
    natOfDigits (List.replicate j 0 ++ l) = natOfDigits l := by
  induction j with
  | zero => rfl
  | succ i ih => simpa [List.replicate_succ, natOfDigits] using ih

theorem natOfDigits_append_singleton (l : List ℕ) (d : ℕ) :
    natOfDigits (l ++ [d]) = 10 * natOfDigits l + d := by
  simp [natOfDigits, List.foldl_append]

theorem natOfDigits_reverse (L : List ℕ) :
    natOfDigits L.reverse = Nat.ofDigits 10 L := by
  induction L with
  | nil => rfl
  | cons d L ih =>
    rw [List.reverse_cons, natOfDigits_append_singleton, ih, Nat.ofDigits_cons]
    omega

theorem natOfDigits_strVals (n : ℕ) : natOfDigits (strVals n) = n := by
  unfold strVals
  split
  · simp [natOfDigits, *]
  · rw [natOfDigits_reverse, Nat.ofDigits_digits]

theorem natOfDigits_padDigits (n k : ℕ) : natOfDigits (padDigits n k) = n := by
  rw [padDigits, natOfDigits_replicate_zero, natOfDigits_strVals]

theorem digits10_single {n : ℕ} (h0 : 0 < n) (h : n < 10) : Nat.digits 10 n = [n] := by
  rw [Nat.digits_def' (by norm_num : (1 : ℕ) < 10) h0,
    Nat.mod_eq_of_lt h, Nat.div_eq_of_lt h, Nat.digits_zero]

theorem padDigits_two {n : ℕ} (h : n < 100) : padDigits n 2 = [n / 10, n % 10] := by
  unfold padDigits strVals
  rcases Nat.eq_zero_or_pos n with rfl | hpos
  · simp
  · rcases Nat.lt_or_ge n 10 with h10 | h10
    · rw [if_neg (by omega), digits10_single hpos h10]
      simp [List.replicate]
      omega
    · have hd : Nat.digits 10 n = [n % 10, n / 10] := by
        rw [Nat.digits_def' (by norm_num : (1 : ℕ) < 10) hpos,
          digits10_single (by omega) (by omega)]
      rw [if_neg (by omega), hd]
      simp

theorem mmOK_padDigits_two {n : ℕ} (h : n < 60) : mmOK (padDigits n 2) = true := by
  rw [padDigits_two (by omega)]
  simp [mmOK]
  omega

theorem strVals_length_le_three {n : ℕ} (h : n < 1000) : (strVals n).length ≤ 3 := by
  unfold strVals
  rcases Nat.eq_zero_or_pos n with rfl | hpos
  · simp
  · rw [if_neg (by omega), List.length_reverse,
      Nat.digits_len 10 n (by norm_num) (by omega)]
    have : Nat.log 10 n < 3 := Nat.log_lt_of_lt_pow (by omega) (by simpa using h)
    omega

theorem padDigits_three_length {n : ℕ} (h : n < 1000) : (padDigits n 3).length = 3 := by
  unfold padDigits
  rw [List.length_append, List.length_replicate]
  have := strVals_length_le_three h
  omega

theorem dropWhile_eq_self_of {p : Char → Bool} {l : List Char}
    (h : ∀ c ∈ l, p c = false) : l.dropWhile p = l := by
  cases l with
  | nil => rfl
  | cons c cs => simp [List.dropWhile_cons, h c (List.mem_cons_self _ _)]

theorem jsTrim_eq_self {l : List Char} (h : ∀ c ∈ l, isSpaceChar c = false) :
    jsTrim l = l := by
  unfold jsTrim
  rw [dropWhile_eq_self_of h,
    dropWhile_eq_self_of (fun c hc => h c (List.mem_reverse.1 hc)),
    List.reverse_reverse]

theorem noSpace_pad (n k : ℕ) : ∀ c ∈ pad n k, isSpaceChar c = false := by
  rw [pad_eq_map]
  intro c hc
  obtain ⟨d, _, rfl⟩ := List.mem_map.1 hc
  exact isSpaceChar_digitChar d

theorem readGroup2_pad {n : ℕ} (h : n < 60) (rest : List Char)
    (hrest : rest = [] ∨ ∃ c cs, rest = c :: cs ∧ digitVal? c = none) :
    readGroup2 (pad n 2 ++ rest) = some (n, rest) := by
  unfold readGroup2
  rw [readDigits_pad n 2 rest hrest]
  simp [mmOK_padDigits_two h, natOfDigits_padDigits]

theorem readFrac_pad {n : ℕ} (h : n < 1000) : readFrac ('.' :: pad n 3) = some n := by
  have he : readDigits (pad n 3) = (padDigits n 3, []) := by
    simpa using readDigits_pad n 3 [] (Or.inl rfl)
  simp [readFrac, he, padDigits_ne_nil, padDigits_three_length h,
    natOfDigits_padDigits]

theorem toMs_eval (hh mm ss mmm : ℕ) (hmm : mm < 60) (hss : ss < 60)
    (hmmm : mmm < 1000) :
    toMs (pad hh 2 ++ ':' :: (pad mm 2 ++ ':' :: (pad ss 2 ++ '.' :: pad mmm 3))) =
      some (hh * 3600000 + mm * 60000 + ss * 1000 + mmm) := by
  have hns : ∀ c ∈ pad hh 2 ++ ':' :: (pad mm 2 ++ ':' ::
      (pad ss 2 ++ '.' :: pad mmm 3)), isSpaceChar c = false := by
    intro c hc
    rcases List.mem_append.1 hc with hc | hc
    · exact noSpace_pad _ _ c hc
    · rcases List.mem_cons.1 hc with rfl | hc
      · decide
      · rcases List.mem_append.1 hc with hc | hc
        · exact noSpace_pad _ _ c hc
        · rcases List.mem_cons.1 hc with rfl | hc
          · decide
          · rcases List.mem_append.1 hc with hc | hc
            · exact noSpace_pad _ _ c hc
            · rcases List.mem_cons.1 hc with rfl | hc
              · decide
              · exact noSpace_pad _ _ c hc
  have e1 : readDigits (pad hh 2 ++ ':' :: (pad mm 2 ++ ':' ::
      (pad ss 2 ++ '.' :: pad mmm 3))) =
      (padDigits hh 2, ':' :: (pad mm 2 ++ ':' :: (pad ss 2 ++ '.' :: pad mmm 3))) :=
    readDigits_pad _ _ _ (Or.inr ⟨':', _, rfl, by decide⟩)
  have e2 : readGroup2 (pad mm 2 ++ ':' :: (pad ss 2 ++ '.' :: pad mmm 3)) =
      some (mm, ':' :: (pad ss 2 ++ '.' :: pad mmm 3)) :=
    readGroup2_pad hmm _ (Or.inr ⟨':', _, rfl, by decide⟩)
  have e3 : readGroup2 (pad ss 2 ++ '.' :: pad mmm 3) = some (ss, '.' :: pad mmm 3) :=
    readGroup2_pad hss _ (Or.inr ⟨'.', _, rfl, by decide⟩)
  have e4 : readFrac ('.' :: pad mmm 3) = some mmm := readFrac_pad hmmm
  unfold toMs
  rw [jsTrim_eq_self hns, e1]
  simp [padDigits_ne_nil, expectColon, e2, e3, e4, natOfDigits_padDigits]

/-- Claim C10: converting any non-negative integer number of milliseconds
with `msToTimestamp` into an `HH:MM:SS.mmm` string and parsing that string
back through the timestamp branch (`toMs`) of `parseTimeInputs` yields
exactly the original value. -/
theorem msToTimestamp_roundtrip (n : ℕ) : toMs (msToTimestamp (n : ℤ)) = some n := by
  have hsign : ¬ ((n : ℤ) < 0) := by omega
  have habs : ((max 0 |(n : ℤ)|).toNat) = n := by
    rw [abs_of_nonneg (by omega : (0 : ℤ) ≤ (n : ℤ)),
      max_eq_right (by omega : (0 : ℤ) ≤ (n : ℤ))]
    omega
  have hbody : msToTimestamp (n : ℤ) =
      pad (n / 3600000) 2 ++ ':' :: (pad ((n % 3600000) / 60000) 2 ++ ':' ::
        (pad ((n % 60000) / 1000) 2 ++ '.' :: pad (n % 1000) 3)) := by
    unfold msToTimestamp
    rw [if_neg hsign, habs]
    simp
  rw [hbody, toMs_eval _ _ _ _ (by omega) (by omega) (by omega)]
  congr 1
  omega
